import Mathlib

/-!
Shallow embedding of the `StackedCards` widget (`src/components/StackedCards.svelte`)
and its utility functions (`clamp`, `debounce` from `src/utils/utils.ts`),
together with theorems settling the specification claims.

JavaScript numbers are modelled as rationals (`ℚ`) where the computation stays
finite; a dedicated `JSNum` type with `NaN`/`Infinity` models the IEEE special
values needed for the division-by-zero claim. `Math.round` on finite values is
Mathlib's `round` (round half towards positive infinity), which agrees with the
ECMAScript definition.
-/

namespace StackedCards

/-- `clamp` from `src/utils/utils.ts`:
`Math.min(Math.max(value, min), max)`. Polymorphic over a linear order so the
same definition serves rational brightness values and integer card indices
(JavaScript has a single number type). -/
def clamp {α : Type} [LinearOrder α] (value min max : α) : α :=
  Min.min (Max.max value min) max

/-- Lower bound of `clamp` when the bounds are ordered. -/
theorem le_clamp {α : Type} [LinearOrder α] (v lo hi : α) (h : lo ≤ hi) :
    lo ≤ clamp v lo hi :=
  le_min (le_max_right v lo) h

/-- Upper bound of `clamp`, unconditionally. -/
theorem clamp_le {α : Type} [LinearOrder α] (v lo hi : α) : clamp v lo hi ≤ hi :=
  min_le_right _ _

/-- The per-card value computed in the reactive opacity block of
`StackedCards.svelte` (lines 73-81): the argument of `clamp` is
`Math.abs(i - hoveredCardIndex) * Math.round(100 / steps) / 100`,
clamped to `[minBrightness, maxBrightness]`.  `steps` here is already the
effective step count `gradientTransitionSteps ?? cards.length`. -/
def opacityValue (i hoveredCardIndex : ℤ) (steps minBrightness maxBrightness : ℚ) : ℚ :=
  clamp ((|(i : ℚ) - (hoveredCardIndex : ℚ)| * ((round ((100 : ℚ) / steps) : ℤ) : ℚ)) / 100)
    minBrightness maxBrightness

/-- The string written to the `--opacity` custom property (line 85 of the
component): `invert ? 1 - value : value`, where `value` is the already
clamped `opacityValue`. -/
def cardOpacityProp (i hoveredCardIndex : ℤ) (steps minBrightness maxBrightness : ℚ)
    (invert : Bool) : ℚ :=
  if invert then 1 - opacityValue i hoveredCardIndex steps minBrightness maxBrightness
  else opacityValue i hoveredCardIndex steps minBrightness maxBrightness

/-- The effective step count used by the opacity block:
`gradientTransitionSteps ?? cards.length`. -/
def effectiveSteps (gradientTransitionSteps : Option ℚ) (cardsLength : ℕ) : ℚ :=
  gradientTransitionSteps.getD cardsLength

/-- Formula written from the specification's words (for comparison against the
code): `clamp(invert ? 1 - raw : raw, min, max)` with
`raw = (abs(i - a) * round(100 / steps)) / 100`, i.e. the inversion applied
BEFORE clamping. -/
def specIntensityFor (i a : ℤ) (steps minB maxB : ℚ) (invert : Bool) : ℚ :=
  clamp
    (if invert then 1 - (|(i : ℚ) - (a : ℚ)| * ((round ((100 : ℚ) / steps) : ℤ) : ℚ)) / 100
     else (|(i : ℚ) - (a : ℚ)| * ((round ((100 : ℚ) / steps) : ℤ) : ℚ)) / 100)
    minB maxB

/-- Formula for the amended claim, written from the spec's words with the
inversion moved AFTER the clamp: `let raw = (abs(i - a) * round(100/steps))/100;
let clamped = clamp(raw, min, max); invert ? 1 - clamped : clamped`. -/
def specIntensityInvertAfterClamp (i a : ℤ) (steps minB maxB : ℚ) (invert : Bool) : ℚ :=
  let raw := (|(i : ℚ) - (a : ℚ)| * ((round ((100 : ℚ) / steps) : ℤ) : ℚ)) / 100
  let clamped := clamp raw minB maxB
  if invert then 1 - clamped else clamped

/-- C1 counterexample: at `i = a = 0`, `steps = 5`, `min = 1/5`, `max = 1`,
`invert = true`, the code emits `1 - clamp(0, 1/5, 1) = 4/5`, while the claim's
formula `clamp(1 - 0, 1/5, 1)` gives `1`. -/
theorem invert_before_clamp_counterexample :
    cardOpacityProp 0 0 5 (1 / 5) 1 true ≠ specIntensityFor 0 0 5 (1 / 5) 1 true := by
  have h20 : round ((100 : ℚ) / 5) = 20 := by norm_num [round_eq]
  simp [cardOpacityProp, opacityValue, specIntensityFor, clamp, h20, min_def, max_def]
  norm_num

/-- C1 (amended): for every card index, active index, optional step count
(defaulting to the card count), bounds and invert flag, the emitted intensity
equals `invert ? 1 - clamp(raw, min, max) : clamp(raw, min, max)` with
`raw = (abs(i - a) * round(100 / steps)) / 100`: the inversion is applied to
the already clamped value, not before clamping. -/
theorem cardOpacityProp_eq_spec (i a : ℤ) (gradientTransitionSteps : Option ℚ)
    (cardsLength : ℕ) (minB maxB : ℚ) (invert : Bool) :
    cardOpacityProp i a (effectiveSteps gradientTransitionSteps cardsLength) minB maxB invert =
      specIntensityInvertAfterClamp i a (effectiveSteps gradientTransitionSteps cardsLength)
        minB maxB invert := by
  cases invert <;> rfl

/-- C2 counterexample: with `min = 1/2`, `max = 1` (a valid configuration,
`0 ≤ 1/2 ≤ 1 ≤ 1`), `steps = 5 > 0`, `invert = true`, card `4` with active
index `0` gets `1 - clamp(4/5, 1/2, 1) = 1/5`, which is below `min = 1/2`. -/
theorem intensity_outside_bounds_counterexample :
    (0 : ℚ) ≤ 1 / 2 ∧ (1 / 2 : ℚ) ≤ 1 ∧ (1 : ℚ) ≤ 1 ∧ (0 : ℚ) < 5 ∧
      cardOpacityProp 4 0 5 (1 / 2) 1 true < 1 / 2 := by
  refine ⟨by norm_num, by norm_num, le_refl 1, by norm_num, ?_⟩
  have h20 : round ((100 : ℚ) / 5) = 20 := by norm_num [round_eq]
  simp [cardOpacityProp, opacityValue, clamp, h20, min_def, max_def]
  norm_num

/-- C2 (amended): for valid bounds `0 ≤ min ≤ max ≤ 1` and `steps > 0`, the
emitted intensity lies in `[min, max]` when `invert` is false; when `invert`
is true it lies in `[1 - max, 1 - min]` (the clamped value before inversion
always lies in `[min, max]`). -/
theorem cardOpacityProp_range (i a : ℤ) (steps minB maxB : ℚ)
    (_h0 : 0 ≤ minB) (h1 : minB ≤ maxB) (_h2 : maxB ≤ 1) (_hs : 0 < steps) :
    (minB ≤ cardOpacityProp i a steps minB maxB false ∧
      cardOpacityProp i a steps minB maxB false ≤ maxB) ∧
    (1 - maxB ≤ cardOpacityProp i a steps minB maxB true ∧
      cardOpacityProp i a steps minB maxB true ≤ 1 - minB) := by
  have hlo := le_clamp ((|(i : ℚ) - (a : ℚ)| *
    ((round ((100 : ℚ) / steps) : ℤ) : ℚ)) / 100) minB maxB h1
  have hhi := clamp_le ((|(i : ℚ) - (a : ℚ)| *
    ((round ((100 : ℚ) / steps) : ℤ) : ℚ)) / 100) minB maxB
  refine ⟨⟨hlo, hhi⟩, ?_, ?_⟩
  · simp only [cardOpacityProp, opacityValue, if_true]
    linarith
  · simp only [cardOpacityProp, opacityValue, if_true]
    linarith

/-- Witness for C2's amended theorem at `i = 1`, `a = 0`, `steps = 5`,
`min = 0`, `max = 1`. -/
theorem cardOpacityProp_range_witness :
    (0 : ℚ) ≤ cardOpacityProp 1 0 5 0 1 false ∧ cardOpacityProp 1 0 5 0 1 false ≤ 1 :=
  (cardOpacityProp_range 1 0 5 0 1 (le_refl 0) (by norm_num) (le_refl 1) (by norm_num)).1

/-- `Math.sign` applied to a wheel event's `deltaY`. -/
def signOf (q : ℚ) : ℤ :=
  if q < 0 then -1 else if q = 0 then 0 else 1

/-- The mutable state of the component: `hoveredCardIndex` (the active index,
initially 0) and `isHoverDisabled` (the hover lock set by wheel input). -/
structure WidgetState where
  hoveredCardIndex : ℤ
  isHoverDisabled : Bool
deriving DecidableEq

/-- `setCardIndex` from the component:
`hoveredCardIndex = clamp(index, 0, cards.length - 1)`. -/
def setCardIndex (cardsLength : ℕ) (s : WidgetState) (index : ℤ) : WidgetState :=
  { s with hoveredCardIndex := clamp index 0 ((cardsLength : ℤ) - 1) }

/-- Input events of the widget: a hover (mouseover/focus) on card `index`, a
wheel event carrying `deltaY`, a programmatic index set, and the firing of the
debounced `enableHover` callback (which re-enables hover). -/
inductive Event where
  | hover (index : ℤ)
  | wheel (deltaY : ℚ)
  | set (index : ℤ)
  | unlock
deriving DecidableEq

/-- One step of the widget: `handleCardHover` (no-op while `isHoverDisabled`),
`handleCardScroll` (guarded by `scrollCardsOnWheel`; sets the index to
`hoveredCardIndex - Math.sign(deltaY)` and locks hover), `setCardIndex`, and
the debounce callback clearing `isHoverDisabled`. -/
def step (cardsLength : ℕ) (scrollCardsOnWheel : Bool) (s : WidgetState) :
    Event → WidgetState
  | .hover i => if s.isHoverDisabled then s else setCardIndex cardsLength s i
  | .wheel deltaY =>
      if scrollCardsOnWheel then
        { setCardIndex cardsLength s (s.hoveredCardIndex - signOf deltaY) with
            isHoverDisabled := true }
      else s
  | .set i => setCardIndex cardsLength s i
  | .unlock => { s with isHoverDisabled := false }

/-- The state at mount: `hoveredCardIndex = 0`, hover enabled. -/
def initialState : WidgetState :=
  { hoveredCardIndex := 0, isHoverDisabled := false }

/-- Processing a sequence of events. -/
def run (cardsLength : ℕ) (scrollCardsOnWheel : Bool) (s : WidgetState)
    (events : List Event) : WidgetState :=
  events.foldl (step cardsLength scrollCardsOnWheel) s

/-- C3: for every card count `n > 0`, `setCardIndex` puts the active index in
`[0, n-1]` for every requested index, and every state reachable from the
initial state via hover, wheel, programmatic set, and unlock events keeps
`0 ≤ hoveredCardIndex < n`. -/
theorem activeIndex_invariant (n : ℕ) (hn : 0 < n) :
    (∀ (s : WidgetState) (i : ℤ),
        0 ≤ (setCardIndex n s i).hoveredCardIndex ∧
          (setCardIndex n s i).hoveredCardIndex < n) ∧
    ∀ (wheelFlag : Bool) (events : List Event),
        0 ≤ (run n wheelFlag initialState events).hoveredCardIndex ∧
          (run n wheelFlag initialState events).hoveredCardIndex < n := by
  have hn' : (0 : ℤ) < n := by exact_mod_cast hn
  have hset : ∀ (s : WidgetState) (i : ℤ),
      0 ≤ (setCardIndex n s i).hoveredCardIndex ∧
        (setCardIndex n s i).hoveredCardIndex < n := by
    intro s i
    have h1 := le_clamp i 0 ((n : ℤ) - 1) (by linarith)
    have h2 := clamp_le i 0 ((n : ℤ) - 1)
    exact ⟨h1, by simpa [setCardIndex] using lt_of_le_of_lt h2 (by linarith)⟩
  have hstep : ∀ (w : Bool) (s : WidgetState), 0 ≤ s.hoveredCardIndex →
      s.hoveredCardIndex < n → ∀ e : Event,
        0 ≤ (step n w s e).hoveredCardIndex ∧ (step n w s e).hoveredCardIndex < n := by
    intro w s h0 h1 e
    cases e with
    | hover i =>
        by_cases hd : s.isHoverDisabled
        · simpa [step, hd] using ⟨h0, h1⟩
        · simpa [step, hd] using hset s i
    | wheel deltaY =>
        by_cases hw : w
        · simpa [step, hw] using hset s (s.hoveredCardIndex - signOf deltaY)
        · simpa [step, hw] using ⟨h0, h1⟩
    | set i => exact hset s i
    | unlock => exact ⟨h0, h1⟩
  refine ⟨hset, ?_⟩
  have hrun : ∀ (w : Bool) (events : List Event) (s : WidgetState),
      0 ≤ s.hoveredCardIndex → s.hoveredCardIndex < n →
        0 ≤ (run n w s events).hoveredCardIndex ∧
          (run n w s events).hoveredCardIndex < n := by
    intro w events
    induction events with
    | nil => intro s h0 h1; exact ⟨h0, h1⟩
    | cons e es ih =>
        intro s h0 h1
        have h := hstep w s h0 h1 e
        simpa [run] using ih (step n w s e) h.1 h.2
  intro w events
  exact hrun w events initialState (le_refl 0) hn'

/-- Witness for C3 at `n = 3` with a sample event trace mixing out-of-range
hover, wheel, and programmatic set. -/
theorem activeIndex_invariant_witness :
    0 ≤ (run 3 true initialState
          [Event.hover 7, Event.wheel 1, Event.set (-5), Event.unlock]).hoveredCardIndex ∧
      (run 3 true initialState
          [Event.hover 7, Event.wheel 1, Event.set (-5), Event.unlock]).hoveredCardIndex < 3 :=
  (activeIndex_invariant 3 (by norm_num)).2 true
    [Event.hover 7, Event.wheel 1, Event.set (-5), Event.unlock]

/-- C5 counterexample: three wheel events with `deltaSign = +1` from
`activeIndex = 2` with 5 cards do NOT end at index 4: the handler computes
`hoveredCardIndex - deltaSign`, so the index decreases. -/
theorem wheel_three_counterexample :
    (run 5 true { hoveredCardIndex := 2, isHoverDisabled := false }
        [Event.wheel 1, Event.wheel 1, Event.wheel 1]).hoveredCardIndex ≠ 4 := by
  decide

/-- C5 (amended): from `activeIndex = 2` with 5 cards, three wheel events with
`deltaSign = +1` end at `activeIndex = 0` (requested `-1`, clamped to `0`),
since each event applies `setCardIndex(hoveredCardIndex - deltaSign)`. -/
theorem wheel_three_result :
    (run 5 true { hoveredCardIndex := 2, isHoverDisabled := false }
        [Event.wheel 1, Event.wheel 1, Event.wheel 1]).hoveredCardIndex = 0 := by
  decide

/-- C6: while `isHoverDisabled` is true a hover event leaves the whole state
unchanged; while it is false, a hover on card `i` sets the active index to
`clamp(i, 0, cardsLength - 1)` and leaves the lock unchanged. -/
theorem hover_effect (n : ℕ) (w : Bool) (s : WidgetState) (i : ℤ) :
    (s.isHoverDisabled = true → step n w s (Event.hover i) = s) ∧
    (s.isHoverDisabled = false →
      (step n w s (Event.hover i)).hoveredCardIndex = clamp i 0 ((n : ℤ) - 1) ∧
        (step n w s (Event.hover i)).isHoverDisabled = s.isHoverDisabled) := by
  constructor
  · intro h
    simp [step, h]
  · intro h
    simp [step, h, setCardIndex]

/-- Witness for C6: with the lock set, hovering card 2 changes nothing. -/
theorem hover_effect_witness :
    step 3 true { hoveredCardIndex := 1, isHoverDisabled := true } (Event.hover 2) =
      { hoveredCardIndex := 1, isHoverDisabled := true } :=
  (hover_effect 3 true { hoveredCardIndex := 1, isHoverDisabled := true } 2).1 rfl

/-- C8: `clamp(v, min, max)` with `min > max` returns `max`
(`Math.min(Math.max(v, min), max)` with `Math.max(v, min) ≥ min > max`); in
particular with an empty card list `setCardIndex` sets the active index to
`clamp(i, 0, -1) = -1` for every requested index. -/
theorem clamp_min_gt_max (v lo hi : ℚ) (h : hi < lo) :
    clamp v lo hi = hi ∧
      ∀ (s : WidgetState) (i : ℤ), (setCardIndex 0 s i).hoveredCardIndex = -1 := by
  constructor
  · exact min_eq_right (le_of_lt (lt_of_lt_of_le h (le_max_right v lo)))
  · intro s i
    have hmax : (-1 : ℤ) ≤ Max.max i 0 := le_trans (by norm_num) (le_max_right i 0)
    have hcast : ((0 : ℕ) : ℤ) - 1 = -1 := by norm_num
    simp only [setCardIndex, clamp, hcast]
    exact min_eq_right hmax

/-- Witness for C8 at `v = 5`, `min = 3`, `max = 1` and requested index 7. -/
theorem clamp_min_gt_max_witness :
    clamp (5 : ℚ) 3 1 = 1 ∧
      (setCardIndex 0 { hoveredCardIndex := 0, isHoverDisabled := false } 7).hoveredCardIndex
        = -1 :=
  ⟨(clamp_min_gt_max 5 3 1 (by norm_num)).1,
    (clamp_min_gt_max 5 3 1 (by norm_num)).2
      { hoveredCardIndex := 0, isHoverDisabled := false } 7⟩

/-- State of the `debounce` closure from `src/utils/utils.ts` applied to the
`enableHover` callback, together with the history of callback firings.
`pending` is the scheduled fire time of the armed timeout, if any; `fired`
records the times at which the callback (the unlock, `isHoverDisabled =
false`) has run. -/
structure DebounceState where
  pending : Option ℚ
  fired : List ℚ
deriving DecidableEq

/-- Passage of time up to instant `t`: a pending timeout whose fire time has
been reached runs its callback. -/
def fireDue (s : DebounceState) (t : ℚ) : DebounceState :=
  match s.pending with
  | some f => if f ≤ t then { pending := none, fired := s.fired ++ [f] } else s
  | none => s

/-- A wheel event at time `t`: after time has advanced to `t`, the debounced
function runs `clearTimeout(timeout)` (invalidating any pending timeout) and
then `timeout = setTimeout(fn, delay)`, arming a fresh one for `t + delay`. -/
def wheelAt (delay : ℚ) (s : DebounceState) (t : ℚ) : DebounceState :=
  { pending := some (t + delay), fired := (fireDue s t).fired }

/-- Processing a sequence of wheel events from the idle state. -/
def runWheels (delay : ℚ) (ts : List ℚ) : DebounceState :=
  ts.foldl (wheelAt delay) { pending := none, fired := [] }

/-- All unlock firings once no further wheel event arrives: the firings that
happened during the sequence plus the still-pending timeout, which fires
unhindered. -/
def allUnlocks (delay : ℚ) (ts : List ℚ) : List ℚ :=
  (runWheels delay ts).fired ++ (runWheels delay ts).pending.toList

/-- Folding further wheel events over an armed state: as long as consecutive
events are less than `delay` apart, no pending timeout ever fires, and the
armed timeout is the one set by the last event. -/
theorem wheelAt_fold (delay : ℚ) :
    ∀ (ts : List ℚ) (t : ℚ),
      List.Chain' (fun a b => a < b ∧ b - a < delay) (t :: ts) →
      ts.foldl (wheelAt delay) { pending := some (t + delay), fired := [] } =
        { pending := some (ts.getLastD t + delay), fired := [] } := by
  intro ts
  induction ts with
  | nil => intro t _; rfl
  | cons u us ih =>
      intro t h
      have h1 : t < u ∧ u - t < delay := (List.chain'_cons.mp h).1
      have h2 : List.Chain' (fun a b => a < b ∧ b - a < delay) (u :: us) :=
        (List.chain'_cons.mp h).2
      have hnotdue : ¬ t + delay ≤ u := by linarith [h1.2]
      have hfirst : wheelAt delay { pending := some (t + delay), fired := [] } u =
          { pending := some (u + delay), fired := [] } := by
        simp [wheelAt, fireDue, hnotdue]
      calc (u :: us).foldl (wheelAt delay) { pending := some (t + delay), fired := [] }
          = us.foldl (wheelAt delay) { pending := some (u + delay), fired := [] } := by
            rw [List.foldl_cons, hfirst]
        _ = { pending := some (us.getLastD u + delay), fired := [] } := ih u h2
        _ = { pending := some ((u :: us).getLastD t + delay), fired := [] } := by
            rw [List.getLastD_cons]

/-- C4: for `N ≥ 1` wheel events at increasing times each less than 1000 ms
apart, exactly one unlock fires, and it fires exactly 1000 ms after the last
wheel event — every earlier timeout is invalidated by the next wheel event
before its fire time. -/
theorem debounce_single_unlock (t : ℚ) (ts : List ℚ)
    (h : List.Chain' (fun a b => a < b ∧ b - a < 1000) (t :: ts)) :
    allUnlocks 1000 (t :: ts) = [ts.getLastD t + 1000] := by
  have h0 : runWheels 1000 (t :: ts) =
      { pending := some (ts.getLastD t + 1000), fired := [] } := by
    have hw : runWheels 1000 (t :: ts) =
        ts.foldl (wheelAt 1000) { pending := some (t + 1000), fired := [] } := by
      simp [runWheels, wheelAt, fireDue]
    rw [hw]
    exact wheelAt_fold 1000 ts t h
  simp [allUnlocks, h0]

/-- Witness for C4: wheel events at 0, 500 and 900 ms yield the single unlock
at 1900 ms. -/
theorem debounce_single_unlock_witness :
    allUnlocks 1000 [0, 500, 900] = [1900] := by
  have h := debounce_single_unlock 0 [500, 900] (by norm_num [List.chain'_cons])
  have hlast : List.getLastD [(500 : ℚ), 900] 0 = 900 := rfl
  rw [hlast] at h
  norm_num at h
  exact h

/-- JavaScript numbers with the IEEE special values needed for the
division-by-zero claim: NaN, the two infinities, and finite values modelled
as rationals (only JavaScript's +0 is modelled). -/
inductive JSNum where
  | nan
  | inf
  | ninf
  | fin (q : ℚ)
deriving DecidableEq

/-- `Math.max` on two arguments: returns NaN if either argument is NaN. -/
def jsMax : JSNum → JSNum → JSNum
  | .nan, _ => .nan
  | _, .nan => .nan
  | .inf, _ => .inf
  | _, .inf => .inf
  | .ninf, b => b
  | a, .ninf => a
  | .fin a, .fin b => .fin (Max.max a b)

/-- `Math.min` on two arguments: returns NaN if either argument is NaN. -/
def jsMin : JSNum → JSNum → JSNum
  | .nan, _ => .nan
  | _, .nan => .nan
  | .ninf, _ => .ninf
  | _, .ninf => .ninf
  | .inf, b => b
  | a, .inf => a
  | .fin a, .fin b => .fin (Min.min a b)

/-- The `clamp` utility over JavaScript numbers:
`Math.min(Math.max(value, min), max)`. -/
def clampJS (value lo hi : JSNum) : JSNum :=
  jsMin (jsMax value lo) hi

/-- ECMAScript division on JSNum. With only +0 modelled, `finite / 0`
carries the numerator's sign. -/
def jsDiv : JSNum → JSNum → JSNum
  | .nan, _ => .nan
  | _, .nan => .nan
  | .inf, .inf => .nan
  | .inf, .ninf => .nan
  | .ninf, .inf => .nan
  | .ninf, .ninf => .nan
  | .inf, .fin b => if b < 0 then .ninf else .inf
  | .ninf, .fin b => if b < 0 then .inf else .ninf
  | .fin _, .inf => .fin 0
  | .fin _, .ninf => .fin 0
  | .fin a, .fin b =>
      if b = 0 then (if a = 0 then .nan else if a < 0 then .ninf else .inf)
      else .fin (a / b)

/-- ECMAScript multiplication on JSNum: `0 * Infinity` is NaN. -/
def jsMul : JSNum → JSNum → JSNum
  | .nan, _ => .nan
  | _, .nan => .nan
  | .inf, .inf => .inf
  | .inf, .ninf => .ninf
  | .ninf, .inf => .ninf
  | .ninf, .ninf => .inf
  | .inf, .fin b => if b = 0 then .nan else if b < 0 then .ninf else .inf
  | .fin a, .inf => if a = 0 then .nan else if a < 0 then .ninf else .inf
  | .ninf, .fin b => if b = 0 then .nan else if b < 0 then .inf else .ninf
  | .fin a, .ninf => if a = 0 then .nan else if a < 0 then .inf else .ninf
  | .fin a, .fin b => .fin (a * b)

/-- `Math.round`: NaN and the infinities pass through; finite values round
half towards positive infinity. -/
def jsRound : JSNum → JSNum
  | .nan => .nan
  | .inf => .inf
  | .ninf => .ninf
  | .fin q => .fin (round q)

/-- The unclamped raw value of the reactive opacity block over JSNum:
`Math.abs(i - hoveredCardIndex) * Math.round(100 / steps) / 100`. -/
def jsRawOpacity (i hoveredCardIndex : ℤ) (steps : JSNum) : JSNum :=
  jsDiv (jsMul (.fin |(i : ℚ) - (hoveredCardIndex : ℚ)|) (jsRound (jsDiv (.fin 100) steps)))
    (.fin 100)

/-- C7 counterexample: the claim says `clamp(NaN, min, max) = min` for every
`min ≤ max`; at `min = 0 ≤ max = 1` the reference clamp returns NaN
(`Math.max(NaN, 0) = NaN` and `Math.min(NaN, 1) = NaN`), not `min`. -/
theorem clamp_nan_counterexample :
    (0 : ℚ) ≤ 1 ∧ clampJS JSNum.nan (JSNum.fin 0) (JSNum.fin 1) = JSNum.nan ∧
      clampJS JSNum.nan (JSNum.fin 0) (JSNum.fin 1) ≠ JSNum.fin 0 :=
  ⟨by norm_num, rfl, by decide⟩

/-- C7 (amended): with `steps = 0` the unguarded division `100 / steps`
produces `Infinity`; the raw value propagated into `clamp` is NaN for the
active card (`0 * Infinity`) and `Infinity` for every other card; `clamp`
propagates NaN unchanged (`clamp(NaN, min, max) = NaN`, not `min`) and maps
`Infinity` to `max`. -/
theorem steps_zero_nan (lo hi : ℚ) (i a : ℤ) :
    jsDiv (JSNum.fin 100) (JSNum.fin 0) = JSNum.inf ∧
    jsRawOpacity i a (JSNum.fin 0) = (if i = a then JSNum.nan else JSNum.inf) ∧
    clampJS JSNum.nan (JSNum.fin lo) (JSNum.fin hi) = JSNum.nan ∧
    clampJS JSNum.inf (JSNum.fin lo) (JSNum.fin hi) = JSNum.fin hi := by
  have e1 : jsDiv (JSNum.fin 100) (JSNum.fin 0) = JSNum.inf := by decide
  refine ⟨e1, ?_, rfl, rfl⟩
  by_cases h : i = a
  · subst h
    have habs : |(i : ℚ) - (i : ℚ)| = 0 := by simp
    simp only [jsRawOpacity, habs, e1]
    decide
  · have hne : |(i : ℚ) - (a : ℚ)| ≠ 0 := by
      have : (i : ℚ) ≠ (a : ℚ) := by exact_mod_cast h
      simpa [sub_eq_zero] using this
    have hnlt : ¬ |(i : ℚ) - (a : ℚ)| < 0 := not_lt.mpr (abs_nonneg _)
    norm_num [jsRawOpacity, e1, jsRound, jsMul, jsDiv, hne, hnlt, h]

/-- A card as supplied to the component:
`{ smallTitle?: string; title: string; todos: string[] }`. -/
structure Card where
  smallTitle : Option String
  title : String
  todos : List String
deriving DecidableEq

/-- The text rendered in the small-title heading:
`card.smallTitle ?? card.title`. -/
def smallTitleLabel (card : Card) : String :=
  card.smallTitle.getD card.title

/-- The render condition of the small-title heading:
`!dontShowSmallTitleWhenCollapsed || i === hoveredCardIndex`. -/
def smallTitleRendered (dontShowSmallTitleWhenCollapsed : Bool)
    (i hoveredCardIndex : ℤ) : Bool :=
  !dontShowSmallTitleWhenCollapsed || (i == hoveredCardIndex)

/-- C9: with `smallTitle` absent the rendered label is the card's full title,
and for a non-active card the small-title element is rendered exactly when
`dontShowSmallTitleWhenCollapsed` is false. -/
theorem smallTitle_fallback (card : Card) (d : Bool) (i a : ℤ)
    (hnone : card.smallTitle = none) (hne : i ≠ a) :
    smallTitleLabel card = card.title ∧
      (smallTitleRendered d i a = true ↔ d = false) := by
  constructor
  · simp [smallTitleLabel, hnone]
  · cases d <;> simp [smallTitleRendered, hne]

/-- Witness for C9: a card without `smallTitle`, shown on card 0 while card 1
is active. -/
theorem smallTitle_fallback_witness :
    smallTitleLabel { smallTitle := none, title := "t", todos := [] } = "t" ∧
      (smallTitleRendered false 0 1 = true ↔ false = false) :=
  smallTitle_fallback { smallTitle := none, title := "t", todos := [] } false 0 1 rfl
    (by decide)

/-- The `vertical` prop: `true`, `false`, or `"auto"`. -/
inductive VerticalSetting where
  | vtrue
  | vfalse
  | auto
deriving DecidableEq

/-- The `class:vertical` binding of the container:
`(vertical === "auto" && windowWidth < 768) || vertical === true`. -/
def isVertical (vertical : VerticalSetting) (windowWidth : ℚ) : Bool :=
  (vertical == VerticalSetting.auto && decide (windowWidth < 768)) ||
    vertical == VerticalSetting.vtrue

/-- C10: with the setting `"auto"` the widget is vertical exactly when the
viewport width is strictly below 768; with `true` it is always vertical and
with `false` never, independent of the width. -/
theorem vertical_rendering (w : ℚ) :
    (isVertical VerticalSetting.auto w = true ↔ w < 768) ∧
      isVertical VerticalSetting.vtrue w = true ∧
      isVertical VerticalSetting.vfalse w = false := by
  refine ⟨?_, by simp [isVertical], by simp [isVertical]⟩
  simp [isVertical]

end StackedCards
